import Mathlib

/-!
Shallow embedding of the version-compatibility resolution and asset-acquisition
pipeline of this repository (scripts/build_from_repo.py, scripts/build_logic.py,
scripts/check_versions.py), together with theorems settling the behavioural
claims about it.  Pure string processing is modelled on `List Char`; the
effectful parts (HTTP requests, subprocess invocations, the file system) are
modelled by passing their observable outcomes explicitly.
-/

/-- Splits a character list at every occurrence of `sep`, keeping empty pieces,
exactly like Python's `str.split(sep)` for a one-character separator:
`"".split('.') = [""]`, `".".split('.') = ["", ""]`. -/
def splitOnChar (sep : Char) : List Char → List (List Char)
  | [] => [[]]
  | c :: cs =>
    if c = sep then [] :: splitOnChar sep cs
    else
      match splitOnChar sep cs with
      | [] => [[c]]
      | g :: gs => (c :: g) :: gs

/-- Whitespace test used to model Python's `str.strip()` on the characters that
occur in tool output. -/
def isSpaceCh (c : Char) : Bool := c.isWhitespace

/-- Model of Python's `str.strip()`: drop whitespace from both ends. -/
def trimL (l : List Char) : List Char :=
  ((l.dropWhile isSpaceCh).reverse.dropWhile isSpaceCh).reverse

/-- Model of Python's `str.isdigit()` on a component: nonempty and all digits. -/
def digitsComp (l : List Char) : Bool := !l.isEmpty && l.all Char.isDigit

/-- Value of a digit string, modelling Python's `int(x)` on an all-digit `x`. -/
def natOfDigits (l : List Char) : Nat := l.foldl (fun n c => 10 * n + (c.toNat - 48)) 0

/-- The sorting key of `get_target_versions` (build_from_repo.py line 187):
`[int(x) for x in s.lstrip('v').split('.') if x.isdigit()]`. -/
def verKeyL (l : List Char) : List Nat :=
  ((splitOnChar '.' (l.dropWhile (fun c => c = 'v'))).filter digitsComp).map natOfDigits

/-- String-level wrapper of `verKeyL`. -/
def verKey (s : String) : List Nat := verKeyL s.data

/-- Lexicographic comparison of integer key tuples, as Python compares lists of
ints (a strict prefix compares smaller). -/
def keyCmp : List Nat → List Nat → Ordering
  | [], [] => Ordering.eq
  | [], _ :: _ => Ordering.lt
  | _ :: _, [] => Ordering.gt
  | a :: as, b :: bs =>
    if a < b then Ordering.lt
    else if b < a then Ordering.gt
    else keyCmp as bs

/-- Insert a version in front of the first element whose key is not greater,
so that earlier list elements stay in front of later equal-key ones. -/
def insertDesc (a : String) : List String → List String
  | [] => [a]
  | b :: bs =>
    if keyCmp (verKey a) (verKey b) = Ordering.lt then b :: insertDesc a bs
    else a :: b :: bs

/-- Model of `versions.sort(key=..., reverse=True)` (build_from_repo.py line
187): a stable sort, descending under `keyCmp` of `verKey`.  Python's sort is
the unique stable sort for this key order, and so is this insertion sort. -/
def sortVersions : List String → List String
  | [] => []
  | a :: as => insertDesc a (sortVersions as)

/-- Weak descending order between two version strings: the key of the first is
not smaller than the key of the second. -/
def geKey (a b : String) : Prop := keyCmp (verKey a) (verKey b) ≠ Ordering.lt

/-- Strict descending order between two version strings. -/
def gtKey (a b : String) : Prop := keyCmp (verKey a) (verKey b) = Ordering.gt

instance (a b : String) : Decidable (geKey a b) := by
  unfold geKey; infer_instance

instance (a b : String) : Decidable (gtKey a b) := by
  unfold gtKey; infer_instance

theorem keyCmp_eq_iff : ∀ x y : List Nat, keyCmp x y = Ordering.eq ↔ x = y
  | [], [] => by simp [keyCmp]
  | [], _ :: _ => by simp [keyCmp]
  | _ :: _, [] => by simp [keyCmp]
  | a :: as, b :: bs => by
    simp only [keyCmp]
    rcases Nat.lt_trichotomy a b with h | h | h
    · simp [h, Nat.ne_of_lt h]
    · subst h
      simp [Nat.lt_irrefl, keyCmp_eq_iff as bs]
    · simp [h, Nat.lt_asymm h, (Nat.ne_of_lt h).symm]

theorem keyCmp_swap : ∀ x y : List Nat, keyCmp y x = (keyCmp x y).swap
  | [], [] => by simp [keyCmp, Ordering.swap]
  | [], _ :: _ => by simp [keyCmp, Ordering.swap]
  | _ :: _, [] => by simp [keyCmp, Ordering.swap]
  | a :: as, b :: bs => by
    simp only [keyCmp]
    rcases Nat.lt_trichotomy a b with h | h | h
    · simp [h, Nat.lt_asymm h, Ordering.swap]
    · subst h
      simp [Nat.lt_irrefl, keyCmp_swap as bs]
    · simp [h, Nat.lt_asymm h, Ordering.swap]

theorem keyCmp_lt_trans :
    ∀ x y z : List Nat, keyCmp x y = Ordering.lt → keyCmp y z = Ordering.lt →
      keyCmp x z = Ordering.lt
  | [], [], _, h, _ => by simp [keyCmp] at h
  | [], _ :: _, [], _, h => by simp [keyCmp] at h
  | [], _ :: _, _ :: _, _, _ => by simp [keyCmp]
  | _ :: _, [], _, h, _ => by simp [keyCmp] at h
  | _ :: _, _ :: _, [], _, h => by simp [keyCmp] at h
  | a :: as, b :: bs, c :: cs, h₁, h₂ => by
    simp only [keyCmp] at h₁ h₂ ⊢
    rcases Nat.lt_trichotomy a b with hab | hab | hab
    · rcases Nat.lt_trichotomy b c with hbc | hbc | hbc
      · simp [Nat.lt_trans hab hbc]
      · subst hbc; simp [hab]
      · simp [hbc, Nat.lt_asymm hbc] at h₂
    · subst hab
      rcases Nat.lt_trichotomy a c with hac | hac | hac
      · simp [hac]
      · subst hac
        simp [Nat.lt_irrefl] at h₁ h₂ ⊢
        exact keyCmp_lt_trans as bs cs h₁ h₂
      · simp [hac, Nat.lt_asymm hac, Nat.lt_irrefl] at h₂
    · simp [hab, Nat.lt_asymm hab] at h₁

theorem geKey_trans {a b c : String} (h₁ : geKey a b) (h₂ : geKey b c) : geKey a c := by
  unfold geKey at h₁ h₂ ⊢
  intro hlt
  rcases hcmp : keyCmp (verKey a) (verKey b) with _ | _ | _
  · exact h₁ hcmp
  · have : verKey a = verKey b := (keyCmp_eq_iff _ _).mp hcmp
    exact h₂ (this ▸ hlt)
  · have hba : keyCmp (verKey b) (verKey a) = Ordering.lt := by
      rw [keyCmp_swap, hcmp]; rfl
    exact h₂ (keyCmp_lt_trans _ _ _ hba hlt)

theorem geKey_of_gtKey_rev {a b : String}
    (h : keyCmp (verKey a) (verKey b) = Ordering.lt) : geKey b a := by
  unfold geKey
  rw [keyCmp_swap, h]
  simp [Ordering.swap]

theorem insertDesc_perm (a : String) : ∀ l : List String, (insertDesc a l).Perm (a :: l)
  | [] => List.Perm.refl _
  | b :: bs => by
    unfold insertDesc
    by_cases h : keyCmp (verKey a) (verKey b) = Ordering.lt
    · simp only [h, if_pos]
      exact (List.Perm.cons b (insertDesc_perm a bs)).trans (List.Perm.swap a b bs)
    · simp only [h, if_neg, ite_false]
      exact List.Perm.refl _

theorem sortVersions_perm : ∀ l : List String, (sortVersions l).Perm l
  | [] => List.Perm.refl _
  | a :: as =>
    (insertDesc_perm a (sortVersions as)).trans (List.Perm.cons a (sortVersions_perm as))

theorem insertDesc_sorted (a : String) :
    ∀ l : List String, l.Pairwise geKey → (insertDesc a l).Pairwise geKey
  | [], _ => by simp [insertDesc]
  | b :: bs, h => by
    rcases List.pairwise_cons.mp h with ⟨hb, hbs⟩
    unfold insertDesc
    by_cases hc : keyCmp (verKey a) (verKey b) = Ordering.lt
    · simp only [hc, if_pos]
      refine List.pairwise_cons.mpr ⟨?_, insertDesc_sorted a bs hbs⟩
      intro x hx
      have hx' : x ∈ a :: bs := (insertDesc_perm a bs).mem_iff.mp hx
      rcases List.mem_cons.mp hx' with rfl | hx''
      · exact geKey_of_gtKey_rev hc
      · exact hb x hx''
    · simp only [hc, if_neg, ite_false]
      refine List.pairwise_cons.mpr ⟨?_, h⟩
      intro x hx
      rcases List.mem_cons.mp hx with rfl | hx'
      · exact hc
      · exact geKey_trans hc (hb x hx')

theorem sortVersions_sorted : ∀ l : List String, (sortVersions l).Pairwise geKey
  | [] => by simp [sortVersions]
  | a :: as => insertDesc_sorted a (sortVersions as) (sortVersions_sorted as)

theorem pairwise_and {α : Type} {R S : α → α → Prop} :
    ∀ {l : List α}, l.Pairwise R → l.Pairwise S → l.Pairwise (fun a b => R a b ∧ S a b)
  | [], _, _ => List.Pairwise.nil
  | _ :: _, h₁, h₂ => by
    rcases List.pairwise_cons.mp h₁ with ⟨hr, hr'⟩
    rcases List.pairwise_cons.mp h₂ with ⟨hs, hs'⟩
    exact List.pairwise_cons.mpr ⟨fun x hx => ⟨hr x hx, hs x hx⟩, pairwise_and hr' hs'⟩

/-- Substring test on character lists, modelling Python's `in` on strings. -/
def hasSub (needle : List Char) : List Char → Bool
  | [] => needle.isEmpty
  | c :: cs => needle.isPrefixOf (c :: cs) || hasSub needle cs

/-- Character class of the capture group in the package-announcement pattern
of build_from_repo.py line 176: `[a-zA-Z0-9_.]`. -/
def pkgChar (c : Char) : Bool := c.isAlphanum || c = '_' || c = '.'

/-- The literal part of the package-announcement pattern. -/
def pkgLabelChars : List Char := "Package name:".data

/-- Model of `re.search(r"Package name:\s*([a-zA-Z0-9_.]+)", line)` on a line
(build_from_repo.py line 176): leftmost occurrence of the literal label,
followed by optional whitespace and a nonempty run of package characters,
whose capture is returned. -/
def searchPkgName : List Char → Option (List Char)
  | [] => none
  | c :: cs =>
    if pkgLabelChars.isPrefixOf (c :: cs) then
      let rest := ((c :: cs).drop pkgLabelChars.length).dropWhile isSpaceCh
      let name := rest.takeWhile pkgChar
      if name.isEmpty then searchPkgName cs else some name
    else searchPkgName cs

/-- Greedy consumption of as many `\.\d+` groups as possible, used to model the
`(\.\d+)+` part of the version pattern.  The fuel argument is instantiated with
the length of the input, which bounds the recursion. -/
def dotGroupsFuel : Nat → List Char → List Char
  | 0, _ => []
  | n + 1, l =>
    match l with
    | '.' :: rest =>
      let ds := rest.takeWhile Char.isDigit
      if ds.isEmpty then []
      else ('.' :: ds) ++ dotGroupsFuel n (rest.dropWhile Char.isDigit)
    | _ => []

/-- Model of `re.match(r'^(v?\d+(\.\d+)+)', line)` (build_from_repo.py line
182): an optional leading `v`, a nonempty digit run, and at least one `.digits`
group, anchored at the start of the line; returns the matched text. -/
def versionAtStart (l : List Char) : Option (List Char) :=
  let pre : List Char := if l.head? = some 'v' then ['v'] else []
  let afterV := if l.head? = some 'v' then l.drop 1 else l
  let d1 := afterV.takeWhile Char.isDigit
  if d1.isEmpty then none
  else
    let rest := afterV.dropWhile Char.isDigit
    let groups := dotGroupsFuel rest.length rest
    if groups.isEmpty then none
    else some (pre ++ d1 ++ groups)

/-- The line loop of `get_target_versions` (build_from_repo.py lines 170-184):
strip each line, skip empty lines, switch the current package on an
announcement line, and collect version tokens anchored at line start while the
current package equals the requested one. -/
def groupedLoop (pkg : List Char) : List (List Char) → Option (List Char) → List (List Char)
  | [], _ => []
  | line :: rest, cur =>
    let l := trimL line
    if l.isEmpty then groupedLoop pkg rest cur
    else
      match searchPkgName l with
      | some name => groupedLoop pkg rest (some name)
      | none =>
        if cur = some pkg then
          match versionAtStart l with
          | some v => v :: groupedLoop pkg rest cur
          | none => groupedLoop pkg rest cur
        else groupedLoop pkg rest cur

/-- Grouped-form parse of the external tool's output for one package, as
performed by `get_target_versions` in build_from_repo.py. -/
def parseGrouped (output pkg : String) : List String :=
  (groupedLoop pkg.data (splitOnChar '\n' output.data) none).map List.asString

/-- Model of `get_target_versions(cli_path, patches_path, package_name,
manual_version)` (build_from_repo.py lines 160-194).  The `output` argument is
the standard output of the external `list-versions` invocation; the function
returns the candidate list (`none` models the final `raise`) together with a
flag recording whether the external tool was invoked at all. -/
def getTargetVersions (manualVersion output pkg : String) :
    Option (List String) × Bool :=
  if manualVersion ≠ "" ∧ manualVersion ≠ "auto" then (some [manualVersion], false)
  else
    let vs := parseGrouped output pkg
    if vs.isEmpty then (none, true) else (some (sortVersions vs), true)

/-- Character class `[\d\.,\s]` of the inline version pattern in
build_logic.py line 107. -/
def inlineClassCh (c : Char) : Bool := c.isDigit || c = '.' || c = ',' || c.isWhitespace

/-- Model of `re.search(r'\(([\d\.,\s]+)\)', line)` (build_logic.py line 107):
leftmost `(`, a nonempty run of class characters, and a closing `)`;
returns the capture between the parentheses. -/
def parenMatchIn : List Char → Option (List Char)
  | [] => none
  | '(' :: rest =>
    let run := rest.takeWhile inlineClassCh
    if run.isEmpty then parenMatchIn rest
    else if (rest.dropWhile inlineClassCh).head? = some ')' then some run
    else parenMatchIn rest
  | _ :: rest => parenMatchIn rest

/-- Separator class of `re.split(r'[,\s]+', v_str)` (build_logic.py line 111). -/
def sepCh (c : Char) : Bool := c = ',' || c.isWhitespace

/-- Model of splitting the captured text on comma/whitespace runs and keeping
the nonempty stripped tokens (build_logic.py line 111).  Fuel is instantiated
with the input length, which bounds the recursion. -/
def tokenSplitFuel : Nat → List Char → List (List Char)
  | 0, _ => []
  | n + 1, l =>
    let l1 := l.dropWhile sepCh
    if l1.isEmpty then []
    else
      let t := l1.takeWhile (fun c => !sepCh c)
      t :: tokenSplitFuel n (l1.dropWhile (fun c => !sepCh c))

/-- Versions contributed by one line of tool output under the inline parse of
`get_compatible_version` (build_logic.py lines 104-112): if the package name
occurs as a substring of the line, every comma/space-separated token inside
the first well-formed parenthesized group is collected. -/
def inlineLineVersions (pkg line : List Char) : List (List Char) :=
  if hasSub pkg line then
    match parenMatchIn line with
    | some run => tokenSplitFuel run.length run
    | none => []
  else []

/-- All versions the inline-form parser of build_logic.py extracts from the
tool output for one package (in line order, before deduplication). -/
def inlineVersionsOf (output pkg : String) : List String :=
  (((splitOnChar '\n' output.data).map (inlineLineVersions pkg.data)).flatten).map List.asString

theorem gtKey_of_ge_ne {a b : String} (hge : geKey a b) (hne : verKey a ≠ verKey b) :
    gtKey a b := by
  unfold gtKey
  rcases hcmp : keyCmp (verKey a) (verKey b) with _ | _ | _
  · exact absurd hcmp hge
  · exact absurd ((keyCmp_eq_iff _ _).mp hcmp) hne
  · rfl

/-- Claim C1 (amended): the candidate list returned by the Compatibility
Resolver's sort is sorted weakly descending under component-wise integer-tuple
comparison of the keys, it is a permutation of its input (no candidate string
is dropped or altered), it is strictly descending whenever the candidates'
integer-tuple keys are pairwise distinct, and on the spec's example input it
returns exactly the example output.  (The unamended claim of strict descent
for every candidate set fails: two distinct candidate strings can share one
key, see the counterexample.) -/
theorem c1_sort_descending (l : List String) :
    (sortVersions l).Pairwise geKey
    ∧ (sortVersions l).Perm l
    ∧ ((l.Pairwise fun a b => verKey a ≠ verKey b) → (sortVersions l).Pairwise gtKey)
    ∧ sortVersions ["19.2.1", "19.16.39", "19.9.0"] = ["19.16.39", "19.9.0", "19.2.1"] := by
  refine ⟨sortVersions_sorted l, sortVersions_perm l, ?_, by decide⟩
  intro hne
  have hne' : (sortVersions l).Pairwise (fun a b => verKey a ≠ verKey b) :=
    (List.Perm.pairwise_iff (fun h hc => h hc.symm) (sortVersions_perm l)).mpr hne
  have hand := pairwise_and (sortVersions_sorted l) hne'
  exact hand.imp fun h => gtKey_of_ge_ne h.1 h.2

/-- Witness for C1: on the spec's example the keys are pairwise distinct and
the returned list is strictly descending. -/
theorem c1_sort_descending_witness :
    (["19.2.1", "19.16.39", "19.9.0"].Pairwise fun a b : String => verKey a ≠ verKey b)
    ∧ (sortVersions ["19.2.1", "19.16.39", "19.9.0"]).Pairwise gtKey :=
  ⟨by decide, (c1_sort_descending ["19.2.1", "19.16.39", "19.9.0"]).2.2.1 (by decide)⟩

/-- Counterexample to C1 as stated: the resolver can produce the candidate set
consisting of the two distinct strings "19.2.1" and "v19.2.1" (both match its
version pattern), their integer-tuple keys coincide, and the returned list is
not strictly descending. -/
theorem c1_counterexample :
    (getTargetVersions "auto" "Package name: com.app\n19.2.1\nv19.2.1" "com.app").1
      = some ["19.2.1", "v19.2.1"]
    ∧ verKey "19.2.1" = verKey "v19.2.1"
    ∧ ("19.2.1" : String) ≠ "v19.2.1"
    ∧ ¬ (["19.2.1", "v19.2.1"] : List String).Pairwise gtKey := by
  refine ⟨by decide, by decide, by decide, ?_⟩
  intro h
  have := List.pairwise_cons.mp h
  have h1 : gtKey "19.2.1" "v19.2.1" := this.1 _ (by simp)
  revert h1
  decide

/-- Claim C2 (amended): the resolver of build_from_repo.py parses only the
grouped output form.  Every candidate list it returns is a permutation of the
grouped-form matches, it fails exactly when the grouped parse finds nothing
(there is no fallback to the inline form), and the external tool is always
invoked on the auto path. -/
theorem c2_grouped_only (output pkg : String) :
    (∀ vs, (getTargetVersions "auto" output pkg).1 = some vs →
        vs.Perm (parseGrouped output pkg))
    ∧ ((getTargetVersions "auto" output pkg).1 = none ↔ parseGrouped output pkg = [])
    ∧ (getTargetVersions "auto" output pkg).2 = true := by
  have hauto : ¬ (("auto" : String) ≠ "" ∧ ("auto" : String) ≠ "auto") := by simp
  by_cases h : (parseGrouped output pkg).isEmpty
  · have h' : parseGrouped output pkg = [] := List.isEmpty_iff.mp h
    refine ⟨?_, ?_, ?_⟩ <;> simp [getTargetVersions, hauto, h, h']
  · have h' : parseGrouped output pkg ≠ [] := fun hc => h (List.isEmpty_iff.mpr hc)
    have h2 : (getTargetVersions "auto" output pkg).1
        = some (sortVersions (parseGrouped output pkg)) := by
      simp [getTargetVersions, hauto, h]
    refine ⟨?_, ?_, ?_⟩
    · intro vs hvs
      rw [h2] at hvs
      have h3 : sortVersions (parseGrouped output pkg) = vs := Option.some.inj hvs
      exact h3 ▸ sortVersions_perm _
    · rw [h2]; simp [h']
    · simp [getTargetVersions, hauto, h]

/-- Witness for C2: a grouped-form output for package a.b yields exactly its
grouped-form matches. -/
theorem c2_grouped_only_witness :
    (["1.2.3"] : List String).Perm (parseGrouped "Package name: a.b\n1.2.3" "a.b") :=
  (c2_grouped_only "Package name: a.b\n1.2.3" "a.b").1 ["1.2.3"] (by decide)

/-- Counterexample to C2 as stated: on an inline-form tool output announcing a
compatible version for the requested package, the resolver recognizes no
grouped-form announcement and fails outright instead of falling back to the
inline parse, although the inline parse of the same output reports 19.16.39. -/
theorem c2_counterexample :
    getTargetVersions "auto" "com.google.android.youtube (19.16.39)"
        "com.google.android.youtube" = (none, true)
    ∧ "19.16.39" ∈ inlineVersionsOf "com.google.android.youtube (19.16.39)"
        "com.google.android.youtube" := by decide

/-- Claim C9: a manual version override different from the sentinel "auto"
(and nonempty, as Python's truthiness test requires) is returned as the sole
candidate, for every package and every possible tool output, and the external
listing tool is not invoked. -/
theorem c9_manual_override (manualVersion output pkg : String)
    (h1 : manualVersion ≠ "") (h2 : manualVersion ≠ "auto") :
    getTargetVersions manualVersion output pkg = (some [manualVersion], false) := by
  unfold getTargetVersions
  rw [if_pos ⟨h1, h2⟩]

/-- Witness for C9: override 19.16.38 yields exactly [19.16.38] with no tool
invocation. -/
theorem c9_manual_override_witness :
    getTargetVersions "19.16.38" "Package name: x.y\n9.9.9" "com.google.android.youtube"
      = (some ["19.16.38"], false) :=
  c9_manual_override _ _ _ (by decide) (by decide)

/-- Outcome of one unit of work in `patch_app` (build_from_repo.py):
either a successful acquisition of a version with an asset name, or a skip
carrying the candidate list reported in the SKIP log message. -/
inductive PatchOutcome where
  | success (ver name : String)
  | skipped (checked : List String)
deriving DecidableEq

/-- The candidate loop of `patch_app` (build_from_repo.py lines 257-266): try
each candidate version in order against the acquisition oracle (modelling
`find_apk_in_release`); record every attempted candidate and stop at the first
hit.  Returns the attempted candidates in order and the hit, if any. -/
def acquireLoop (oracle : String → Option String) :
    List String → List String × Option (String × String)
  | [] => ([], none)
  | v :: rest =>
    match oracle v with
    | some name => ([v], some (v, name))
    | none =>
      let r := acquireLoop oracle rest
      (v :: r.1, r.2)

/-- The acquisition phase of `patch_app` (build_from_repo.py lines 253-270):
run the candidate loop; on a hit report success with the selected version, and
otherwise skip, logging the whole candidate list. -/
def patchAttempt (oracle : String → Option String) (candidates : List String) :
    List String × PatchOutcome :=
  let r := acquireLoop oracle candidates
  match r.2 with
  | some (v, name) => (r.1, PatchOutcome.success v name)
  | none => (r.1, PatchOutcome.skipped candidates)

theorem takeWhile_of_all {α : Type} {p : α → Bool} :
    ∀ l : List α, (∀ a ∈ l, p a = true) → l.takeWhile p = l
  | [], _ => rfl
  | a :: as, h => by
    have ha : p a = true := h a (by simp)
    simp [List.takeWhile_cons, ha, takeWhile_of_all as fun b hb => h b (by simp [hb])]

theorem acquireLoop_spec (oracle : String → Option String) :
    ∀ cs : List String,
      (acquireLoop oracle cs).1
        = cs.takeWhile (fun v => (oracle v).isNone)
          ++ (cs.find? fun v => (oracle v).isSome).toList
      ∧ (acquireLoop oracle cs).2
        = (cs.find? fun v => (oracle v).isSome).bind
            fun v => (oracle v).map fun n => (v, n)
  | [] => by simp [acquireLoop]
  | v :: rest => by
    rcases h : oracle v with _ | name
    · have ih := acquireLoop_spec oracle rest
      simp [acquireLoop, h, List.takeWhile_cons, List.find?_cons, ih.1, ih.2]
    · simp [acquireLoop, h, List.takeWhile_cons, List.find?_cons]

theorem patchAttempt_of_none (oracle : String → Option String) (cs : List String)
    (h : (acquireLoop oracle cs).2 = none) :
    patchAttempt oracle cs = ((acquireLoop oracle cs).1, PatchOutcome.skipped cs) := by
  simp [patchAttempt, h]

theorem patchAttempt_of_some (oracle : String → Option String) (cs : List String)
    (v name : String) (h : (acquireLoop oracle cs).2 = some (v, name)) :
    patchAttempt oracle cs = ((acquireLoop oracle cs).1, PatchOutcome.success v name) := by
  simp [patchAttempt, h]

/-- Claim C3: for every acquisition oracle and candidate list, the per-app
pipeline attempts candidates strictly in list order up to and including the
first hit (later candidates are never attempted), the reported success is the
first candidate the oracle accepts, and when no candidate succeeds the unit is
skipped with a message listing exactly the candidates that were tried. -/
theorem c3_candidate_exhaustion (oracle : String → Option String)
    (candidates : List String) :
    (patchAttempt oracle candidates).1
      = candidates.takeWhile (fun v => (oracle v).isNone)
        ++ (candidates.find? fun v => (oracle v).isSome).toList
    ∧ (∀ v name, (patchAttempt oracle candidates).2 = PatchOutcome.success v name →
        (candidates.find? fun v => (oracle v).isSome) = some v ∧ oracle v = some name)
    ∧ (∀ checked, (patchAttempt oracle candidates).2 = PatchOutcome.skipped checked →
        checked = candidates ∧ (patchAttempt oracle candidates).1 = candidates) := by
  have hspec := acquireLoop_spec oracle candidates
  rcases hf : candidates.find? fun v => (oracle v).isSome with _ | w
  · have h2 : (acquireLoop oracle candidates).2 = none := by
      rw [hspec.2, hf]; rfl
    have hall : ∀ v ∈ candidates, ((oracle v).isNone : Bool) = true := by
      intro v hv
      have hne := List.find?_eq_none.mp hf v hv
      rcases hvo : oracle v with _ | n
      · rfl
      · exact absurd (by simp [hvo]) hne
    have h1 : (acquireLoop oracle candidates).1 = candidates := by
      rw [hspec.1, hf]
      simp [takeWhile_of_all candidates hall]
    rw [patchAttempt_of_none oracle candidates h2]
    refine ⟨by rw [hspec.1, hf], ?_, ?_⟩
    · intro v name hout
      have hout' : PatchOutcome.skipped candidates = PatchOutcome.success v name := hout
      exact absurd hout' (by simp)
    · intro checked hout
      have hout' : PatchOutcome.skipped candidates = PatchOutcome.skipped checked := hout
      have hch : candidates = checked := by cases hout'; rfl
      exact ⟨hch.symm, h1⟩
  · have hw := List.find?_some hf
    rcases ho : oracle w with _ | n
    · rw [ho] at hw
      simp at hw
    · have h2 : (acquireLoop oracle candidates).2 = some (w, n) := by
        rw [hspec.2]
        simp [hf, ho]
      rw [patchAttempt_of_some oracle candidates w n h2]
      refine ⟨by rw [hspec.1, hf], ?_, ?_⟩
      · intro v name hout
        have hout' : PatchOutcome.success w n = PatchOutcome.success v name := hout
        have hv : w = v ∧ n = name := by cases hout'; exact ⟨rfl, rfl⟩
        rcases hv with ⟨rfl, rfl⟩
        exact ⟨rfl, ho⟩
      · intro checked hout
        have hout' : PatchOutcome.success w n = PatchOutcome.skipped checked := hout
        exact absurd hout' (by simp)

/-- Witness for C3, on the spec's own example: with candidates
[2.0, 1.9, 1.8] and an oracle succeeding only on 1.9, the pipeline tries
exactly [2.0, 1.9], and the recorded success is 1.9 with its asset. -/
theorem c3_candidate_exhaustion_witness :
    (patchAttempt (fun v => if v = "1.9" then some "app-v1.9.apk" else none)
        ["2.0", "1.9", "1.8"]).1 = ["2.0", "1.9"]
    ∧ (["2.0", "1.9", "1.8"].find?
        fun v => ((fun v => if v = "1.9" then some "app-v1.9.apk" else none) v).isSome)
        = some "1.9"
    ∧ (fun v : String => if v = "1.9" then some "app-v1.9.apk" else none) "1.9"
        = some "app-v1.9.apk" := by
  refine ⟨?_, ?_⟩
  · exact (c3_candidate_exhaustion
      (fun v => if v = "1.9" then some "app-v1.9.apk" else none)
      ["2.0", "1.9", "1.8"]).1.trans (by decide)
  · exact (c3_candidate_exhaustion
      (fun v => if v = "1.9" then some "app-v1.9.apk" else none)
      ["2.0", "1.9", "1.8"]).2.1 "1.9" "app-v1.9.apk" (by decide)

/-- A named downloadable file of an upstream release, as consumed by
`get_asset` in `fetch_tools` (build_from_repo.py) and `download_asset`
(check_versions.py). -/
structure RAsset where
  name : String
  url : String
deriving DecidableEq

/-- Model of Python's `needle in hay` substring test on strings. -/
def containsStr (needle hay : String) : Bool := hasSub needle.data hay.data

/-- Model of Python's `name.endswith(ext)`. -/
def endsStr (ext name : String) : Bool := ext.data.isSuffixOf name.data

/-- Model of `any("all" in a['name'] for a in release['assets'])`
(build_from_repo.py line 115): scans the whole asset list, not only the
assets matching the requested extension. -/
def anyAllAsset (assets : List RAsset) : Bool :=
  assets.any fun a => containsStr "all" a.name

/-- The loop of `get_asset` (build_from_repo.py lines 113-118): return the
first asset that ends with the requested extension and has no "source" marker,
except that when the extension is ".jar", an asset without "all" in its name
is skipped whenever any asset of the release mentions "all". -/
def getAssetLoop (allAssets : List RAsset) (ext : String) : List RAsset → Option RAsset
  | [] => none
  | a :: rest =>
    if endsStr ext a.name && !containsStr "source" a.name then
      if ext == ".jar" && !containsStr "all" a.name && anyAllAsset allAssets then
        getAssetLoop allAssets ext rest
      else some a
    else getAssetLoop allAssets ext rest

/-- Model of `get_asset(repo, ext)` (build_from_repo.py lines 109-118), with
the release's asset list passed explicitly. -/
def getAsset (assets : List RAsset) (ext : String) : Option RAsset :=
  getAssetLoop assets ext assets

theorem getAssetLoop_filtered (allAssets : List RAsset) (ext : String) :
    ∀ rest : List RAsset, ∀ a : RAsset, getAssetLoop allAssets ext rest = some a →
      containsStr "source" a.name = false ∧ endsStr ext a.name = true
  | [], a, h => by simp [getAssetLoop] at h
  | b :: rest, a, h => by
    unfold getAssetLoop at h
    by_cases hb : (endsStr ext b.name && !containsStr "source" b.name : Bool) = true
    · rw [if_pos hb] at h
      by_cases hskip :
          (ext == ".jar" && !containsStr "all" b.name && anyAllAsset allAssets : Bool) = true
      · rw [if_pos hskip] at h
        exact getAssetLoop_filtered allAssets ext rest a h
      · rw [if_neg hskip] at h
        have hab : b = a := Option.some.inj h
        subst hab
        rcases Bool.and_eq_true_iff.mp hb with ⟨h1, h2⟩
        exact ⟨by simpa using h2, h1⟩
    · rw [if_neg hb] at h
      exact getAssetLoop_filtered allAssets ext rest a h

theorem getAssetLoop_all_variant (allAssets : List RAsset)
    (hAll : anyAllAsset allAssets = true) :
    ∀ rest : List RAsset,
      (∃ a ∈ rest, endsStr ".jar" a.name = true ∧ containsStr "source" a.name = false
          ∧ containsStr "all" a.name = true) →
      ∃ b, getAssetLoop allAssets ".jar" rest = some b ∧ containsStr "all" b.name = true
  | [], h => by simp at h
  | c :: rest, h => by
    rcases h with ⟨a, ha, hjar, hsrc, hall⟩
    unfold getAssetLoop
    by_cases hc : (endsStr ".jar" c.name && !containsStr "source" c.name : Bool) = true
    · rw [if_pos hc]
      by_cases hcall : containsStr "all" c.name = true
      · rw [if_neg (by simp [hcall])]
        exact ⟨c, rfl, hcall⟩
      · rw [if_pos (by simp [hcall, hAll])]
        have ha' : a ∈ rest := by
          rcases List.mem_cons.mp ha with rfl | h'
          · exact absurd hall hcall
          · exact h'
        exact getAssetLoop_all_variant allAssets hAll rest ⟨a, ha', hjar, hsrc, hall⟩
    · rw [if_neg hc]
      have ha' : a ∈ rest := by
        rcases List.mem_cons.mp ha with rfl | h'
        · exact absurd (by simp [hjar, hsrc]) hc
        · exact h'
      exact getAssetLoop_all_variant allAssets hAll rest ⟨a, ha', hjar, hsrc, hall⟩

/-- Claim C4: the Release Locator never returns an asset whose name contains
"source" (and the returned asset always matches the requested extension); when
filtering for ".jar" it returns an "all"-inclusive asset whenever one exists
among the candidates; and on the spec's examples it picks "cli-all.jar" over
"cli.jar" and accepts a lone "cli.jar". -/
theorem c4_release_locator (assets : List RAsset) (ext : String) :
    (∀ a, getAsset assets ext = some a →
        containsStr "source" a.name = false ∧ endsStr ext a.name = true)
    ∧ ((∃ a ∈ assets, endsStr ".jar" a.name = true ∧ containsStr "source" a.name = false
          ∧ containsStr "all" a.name = true) →
        ∃ b, getAsset assets ".jar" = some b ∧ containsStr "all" b.name = true)
    ∧ getAsset [⟨"cli.jar", "u1"⟩, ⟨"cli-all.jar", "u2"⟩] ".jar"
        = some ⟨"cli-all.jar", "u2"⟩
    ∧ getAsset [⟨"cli.jar", "u1"⟩] ".jar" = some ⟨"cli.jar", "u1"⟩ := by
  refine ⟨getAssetLoop_filtered assets ext assets, ?_, by decide, by decide⟩
  intro h
  rcases h with ⟨a, ha, hjar, hsrc, hall⟩
  have hAll : anyAllAsset assets = true :=
    List.any_eq_true.mpr ⟨a, ha, hall⟩
  exact getAssetLoop_all_variant assets hAll assets ⟨a, ha, hjar, hsrc, hall⟩

/-- Witness for C4: applied to the release [cli.jar, cli-all.jar], the
locator returns an asset carrying the "all" marker and no "source" marker. -/
theorem c4_release_locator_witness :
    (∃ b, getAsset [⟨"cli.jar", "u1"⟩, ⟨"cli-all.jar", "u2"⟩] ".jar" = some b
        ∧ containsStr "all" b.name = true)
    ∧ (containsStr "source" (RAsset.mk "cli-all.jar" "u2").name = false
        ∧ endsStr ".jar" (RAsset.mk "cli-all.jar" "u2").name = true) :=
  ⟨(c4_release_locator [⟨"cli.jar", "u1"⟩, ⟨"cli-all.jar", "u2"⟩] ".jar").2.1
      ⟨⟨"cli-all.jar", "u2"⟩, by decide, by decide, by decide, by decide⟩,
    (c4_release_locator [⟨"cli.jar", "u1"⟩, ⟨"cli-all.jar", "u2"⟩] ".jar").1
      ⟨"cli-all.jar", "u2"⟩ (by decide)⟩

/-- Kind assigned to a downloaded artifact by the pipeline. -/
inductive PkgKind where
  | single
  | bundle
deriving DecidableEq

/-- A local artifact: its file name together with the entry list of its
archive container, or `none` when the file is not a valid archive.  The
entries field records what an inspection of the content would see; the code
under test never performs such an inspection. -/
structure Artifact where
  path : String
  entries : Option (List String)
deriving DecidableEq

/-- The bundle test of `patch_app` (build_from_repo.py line 281):
`local_apk.endswith((".apkm", ".apks", ".xapk"))`. -/
def bundleExt (p : String) : Bool :=
  endsStr ".apkm" p || endsStr ".apks" p || endsStr ".xapk" p

/-- Classification performed by `patch_app` (build_from_repo.py lines
277-285): purely by file-name extension. -/
def classifyArtifact (a : Artifact) : PkgKind :=
  if bundleExt a.path then PkgKind.bundle else PkgKind.single

/-- Whether `patch_app` routes the artifact through the external merge tool
(build_from_repo.py lines 281-283): exactly the extension test. -/
def mergeInvoked (a : Artifact) : Bool := bundleExt a.path

/-- Classifier following the spec's classification rule, stated for
comparison with the code's classifier: a file is a bundle if and only if it
is a valid archive container whose entries include one or more nested
installable-package entries. -/
def specBundleRule (a : Artifact) : Bool :=
  match a.entries with
  | none => false
  | some es => es.any fun e => endsStr ".apk" e

/-- Claim C5 (amended): bundle classification in the code depends only on the
file name, never on the artifact's content: artifacts with equal paths are
classified identically whatever their archive entries, an artifact is routed
through the merge tool exactly when it is classified as a bundle, and the
classification is by extension (.apkm/.apks/.xapk).  (The unamended
content-based rule fails, see the counterexample.) -/
theorem c5_extension_classification (a b : Artifact) :
    (a.path = b.path → classifyArtifact a = classifyArtifact b)
    ∧ (mergeInvoked a = true ↔ classifyArtifact a = PkgKind.bundle)
    ∧ (classifyArtifact a = PkgKind.bundle ↔ bundleExt a.path = true) := by
  refine ⟨?_, ?_, ?_⟩
  · intro h
    unfold classifyArtifact
    rw [h]
  · unfold mergeInvoked classifyArtifact
    by_cases h : bundleExt a.path = true <;> simp [h]
  · unfold classifyArtifact
    by_cases h : bundleExt a.path = true <;> simp [h]

/-- Witness for C5: a same-named artifact is classified identically whether
it is a broken archive or a real bundle, and is merged in both cases. -/
theorem c5_extension_classification_witness :
    classifyArtifact ⟨"app.apkm", none⟩ = classifyArtifact ⟨"app.apkm", some ["base.apk"]⟩
    ∧ mergeInvoked ⟨"app.apkm", none⟩ = true :=
  ⟨(c5_extension_classification ⟨"app.apkm", none⟩ ⟨"app.apkm", some ["base.apk"]⟩).1 rfl,
    (c5_extension_classification ⟨"app.apkm", none⟩ ⟨"app.apkm", none⟩).2.1.mpr (by decide)⟩

/-- Counterexample to C5 as stated: an artifact named with a bundle extension
that is not a valid archive at all (entries = none) is classified as a bundle
and routed through the merge tool, although the spec's content-based rule
classifies it as a single package that must never be merged. -/
theorem c5_counterexample :
    classifyArtifact ⟨"broken.apkm", none⟩ = PkgKind.bundle
    ∧ specBundleRule ⟨"broken.apkm", none⟩ = false
    ∧ mergeInvoked ⟨"broken.apkm", none⟩ = true := by decide

/-- The per-batch loop of `main` (build_from_repo.py lines 330-335):
`success_count` starts at 0 and is incremented for every app whose
`patch_app` call returns True. -/
def batchLoopCount (oracle : String → Bool) (apps : List String) : Nat :=
  apps.foldl (fun n a => if oracle a then n + 1 else n) 0

/-- Result of one batch run of `main` (build_from_repo.py lines 308-347). -/
structure BatchResult where
  processed : List String
  successCount : Nat
  exitCode : Nat
deriving DecidableEq

/-- Model of `main` (build_from_repo.py lines 324-347): if fetching the
shared tools fails the batch aborts with exit code 1 before any unit of work;
otherwise every app is processed in order, the successes are counted, and the
exit code is 1 exactly when the count is zero. -/
def runBatch (toolsOk : Bool) (oracle : String → Bool) (apps : List String) :
    BatchResult :=
  if toolsOk then
    let c := batchLoopCount oracle apps
    { processed := apps, successCount := c, exitCode := if c = 0 then 1 else 0 }
  else
    { processed := [], successCount := 0, exitCode := 1 }

theorem batchLoopCount_go (oracle : String → Bool) :
    ∀ (apps : List String) (n : Nat),
      apps.foldl (fun n a => if oracle a then n + 1 else n) n = n + apps.countP oracle
  | [], n => by simp
  | a :: as, n => by
    by_cases h : oracle a
    · simp [List.foldl_cons, h, batchLoopCount_go oracle as (n + 1), List.countP_cons]
      omega
    · simp [List.foldl_cons, h, batchLoopCount_go oracle as n, List.countP_cons]

theorem batchLoopCount_eq_countP (oracle : String → Bool) (apps : List String) :
    batchLoopCount oracle apps = apps.countP oracle := by
  unfold batchLoopCount
  simpa using batchLoopCount_go oracle apps 0

/-- Claim C6: when the shared tools are fetched, every unit of work is
processed even if some fail, the reported success count is the number of
successes, and the exit code is nonzero exactly when that count is zero
(all-skip batches fail, a 1-of-3 batch passes with count 1); a tool-fetch
failure aborts the batch with a failing exit code before any unit runs. -/
theorem c6_batch_aggregate (oracle : String → Bool) (apps : List String) :
    (runBatch true oracle apps).processed = apps
    ∧ (runBatch true oracle apps).successCount = apps.countP oracle
    ∧ ((runBatch true oracle apps).exitCode ≠ 0
        ↔ (runBatch true oracle apps).successCount = 0)
    ∧ (runBatch false oracle apps).exitCode = 1
    ∧ (runBatch false oracle apps).processed = []
    ∧ (runBatch true (fun _ => false) ["a", "b", "c"]).successCount = 0
    ∧ (runBatch true (fun _ => false) ["a", "b", "c"]).exitCode = 1
    ∧ (runBatch true (fun x => x == "b") ["a", "b", "c"]).successCount = 1
    ∧ (runBatch true (fun x => x == "b") ["a", "b", "c"]).exitCode = 0 := by
  refine ⟨rfl, batchLoopCount_eq_countP oracle apps, ?_, rfl, rfl,
    by decide, by decide, by decide, by decide⟩
  unfold runBatch
  by_cases h : batchLoopCount oracle apps = 0 <;> simp [h]

/-- Witness for C6: the exit-code equivalence evaluated on an all-skip batch. -/
theorem c6_batch_aggregate_witness :
    (runBatch true (fun _ => false) ["a", "b", "c"]).exitCode ≠ 0 :=
  ((c6_batch_aggregate (fun _ => false) ["a", "b", "c"]).2.2.1).mpr (by decide)

/-- Action taken by `download_file` (build_from_repo.py lines 62-93) on the
first response, which is requested with redirects disabled. -/
inductive FetchStep where
  | failNotFound
  | writeDirect (status : Nat)
  | followLoc (target : String) (headers : List (String × String))
deriving DecidableEq

/-- The statuses the code treats as redirects (build_from_repo.py line 74). -/
def codeRedirectStatuses : List Nat := [301, 302, 307, 308]

/-- Modelled from the spec: the claim speaks of "a redirect status" without
enumerating them; the standard HTTP redirect statuses a client follows are
301, 302, 303, 307 and 308.  Used only to compare the claim with the code's
enumeration. -/
def specRedirectStatuses : List Nat := [301, 302, 303, 307, 308]

/-- Model of `del headers["Authorization"]` before the second request
(build_from_repo.py lines 76-77). -/
def stripAuth (hs : List (String × String)) : List (String × String) :=
  hs.filter fun p => p.1 ≠ "Authorization"

/-- Dispatch of `download_file` on the status of the first response
(build_from_repo.py lines 68-88): 404 is a soft failure; 301/302/307/308
follow the Location with the Authorization header removed; every other status
is handled by the direct-write branch (where `raise_for_status` then decides
success). -/
def firstResponseAction (headers : List (String × String)) (status : Nat)
    (location : String) : FetchStep :=
  if status = 404 then FetchStep.failNotFound
  else if status ∈ codeRedirectStatuses then
    FetchStep.followLoc location (stripAuth headers)
  else FetchStep.writeDirect status

/-- Claim C7 (amended): for first responses with status 301, 302, 307 or 308
the fetcher follows the Location target with the Authorization header removed
from the request headers, so origin credentials are never forwarded.  (As
stated for every redirect status the claim fails: 303 is a redirect status
the code does not treat as one, see the counterexample.) -/
theorem c7_redirect_strips_auth (headers : List (String × String)) (status : Nat)
    (location : String) (h : status ∈ codeRedirectStatuses) :
    firstResponseAction headers status location
      = FetchStep.followLoc location (stripAuth headers)
    ∧ ∀ p ∈ stripAuth headers, p.1 ≠ "Authorization" := by
  constructor
  · have h404 : status ≠ 404 := by
      simp only [codeRedirectStatuses, List.mem_cons, List.not_mem_nil, or_false] at h
      rcases h with rfl | rfl | rfl | rfl <;> decide
    unfold firstResponseAction
    rw [if_neg h404, if_pos h]
  · intro p hp
    exact of_decide_eq_true (List.mem_filter.mp hp).2

/-- Witness for C7: a 302 response with a token header is followed with the
Authorization header gone. -/
theorem c7_redirect_strips_auth_witness :
    firstResponseAction [("Authorization", "token t"), ("User-Agent", "UA")] 302 "https://cdn"
      = FetchStep.followLoc "https://cdn"
          (stripAuth [("Authorization", "token t"), ("User-Agent", "UA")]) :=
  (c7_redirect_strips_auth [("Authorization", "token t"), ("User-Agent", "UA")]
    302 "https://cdn" (by decide)).1

/-- Counterexample to C7 as stated: 303 See Other is a redirect status, but
the fetcher does not follow it; it falls into the direct-write branch, so the
redirect target is never requested (with or without credentials). -/
theorem c7_counterexample :
    303 ∈ specRedirectStatuses
    ∧ firstResponseAction [("Authorization", "token t")] 303 "https://cdn"
        = FetchStep.writeDirect 303 := by decide

/-- Observable outcome of the HTTP exchange inside `download_file`, after
redirect handling: a 404 first response, a response with an error status
(where `raise_for_status` throws before the destination is opened), or a
streamed body.  `chunks` are the chunks the stream yields before it either
ends normally (`failsMidStream = false`) or raises (`failsMidStream = true`). -/
inductive HttpOutcome where
  | notFound
  | errorStatus (code : Nat)
  | okStream (chunks : List Nat) (failsMidStream : Bool)
deriving DecidableEq

/-- State of the destination path after `download_file`, plus the returned
success flag. -/
structure FetchResult where
  fileAtDest : Option (List Nat)
  ok : Bool
deriving DecidableEq

/-- Model of `download_file(url, filename)` (build_from_repo.py lines 62-93)
acting on the destination path.  `existing` is the file previously at the
destination.  On 404 or an error status the destination is untouched and
False is returned.  Otherwise `open(filename, 'wb')` truncates the
destination and the yielded chunks are written; if the stream raises midway
the handler logs and returns False without deleting, so the partial chunks
remain at the destination. -/
def downloadModel (resp : HttpOutcome) (existing : Option (List Nat)) : FetchResult :=
  match resp with
  | HttpOutcome.notFound => { fileAtDest := existing, ok := false }
  | HttpOutcome.errorStatus _ => { fileAtDest := existing, ok := false }
  | HttpOutcome.okStream chunks fails => { fileAtDest := some chunks, ok := !fails }

/-- Claim C8 (amended): on success the fetcher leaves exactly the complete
streamed content at the destination; on failures that occur before the
destination is opened (404 or an error status) it writes nothing; but on a
mid-stream failure it returns False while leaving the partial chunks at the
destination, where a subsequent existence check mistakes them for a complete
file.  (As stated — no file left on any failure — the claim fails, see the
counterexample.) -/
theorem c8_download_failure_effects (resp : HttpOutcome) (existing : Option (List Nat)) :
    ((downloadModel resp existing).ok = true →
      ∃ chunks, resp = HttpOutcome.okStream chunks false
        ∧ (downloadModel resp existing).fileAtDest = some chunks)
    ∧ ((resp = HttpOutcome.notFound ∨ ∃ c, resp = HttpOutcome.errorStatus c) →
      (downloadModel resp existing).fileAtDest = existing)
    ∧ (∀ chunks, resp = HttpOutcome.okStream chunks true →
      (downloadModel resp existing).ok = false
        ∧ (downloadModel resp existing).fileAtDest = some chunks) := by
  refine ⟨?_, ?_, ?_⟩
  · intro hok
    rcases resp with _ | c | ⟨chunks, fails⟩
    · simp [downloadModel] at hok
    · simp [downloadModel] at hok
    · rcases fails with _ | _
      · exact ⟨chunks, rfl, rfl⟩
      · simp [downloadModel] at hok
  · intro h
    rcases h with rfl | ⟨c, rfl⟩ <;> rfl
  · intro chunks h
    subst h
    exact ⟨rfl, rfl⟩

/-- Witness for C8: a complete two-chunk stream succeeds and leaves exactly
those chunks at the destination. -/
theorem c8_download_failure_effects_witness :
    ∃ chunks, HttpOutcome.okStream [1, 2] false = HttpOutcome.okStream chunks false
      ∧ (downloadModel (HttpOutcome.okStream [1, 2] false) none).fileAtDest = some chunks :=
  (c8_download_failure_effects (HttpOutcome.okStream [1, 2] false) none).1 (by decide)

/-- Counterexample to C8 as stated: a stream that yields one chunk and then
raises produces a failed download that nevertheless leaves a file at the
previously empty destination, so a later existence check (as in
`fetch_tools`) accepts the partial file. -/
theorem c8_counterexample :
    (downloadModel (HttpOutcome.okStream [7] true) none).ok = false
    ∧ (downloadModel (HttpOutcome.okStream [7] true) none).fileAtDest = some [7] := by decide

/-- The accepted package extensions of `find_apk_in_release`
(build_from_repo.py line 239). -/
def apkExts : List String := [".apk", ".apkm", ".apks", ".xapk"]

/-- The per-asset test of `find_apk_in_release` (build_from_repo.py line 239):
`name.startswith(f"{app_name}-v{version}") and name.endswith((...))`. -/
def apkAssetMatch (app ver : String) (a : RAsset) : Bool :=
  (app ++ "-v" ++ ver).data.isPrefixOf a.name.data
    && apkExts.any fun e => endsStr e a.name

/-- Model of `find_apk_in_release(app_name, version)` (build_from_repo.py
lines 231-241) over the release's asset list: the first asset passing the
prefix-and-extension test. -/
def findApkInRelease (assets : List RAsset) (app ver : String) : Option RAsset :=
  match assets with
  | [] => none
  | a :: rest =>
    if apkAssetMatch app ver a then some a else findApkInRelease rest app ver

theorem findApkInRelease_eq_find? (app ver : String) :
    ∀ assets : List RAsset, findApkInRelease assets app ver
      = assets.find? (apkAssetMatch app ver)
  | [] => rfl
  | a :: rest => by
    unfold findApkInRelease
    by_cases h : apkAssetMatch app ver a = true
    · simp [h, List.find?_cons, findApkInRelease_eq_find? app ver rest]
    · simp [h, List.find?_cons, findApkInRelease_eq_find? app ver rest]

/-- Claim C10: the storage-repo lookup returns the first release asset whose
name starts with "{app}-v{version}" and ends with an accepted package
extension; in particular, when the requested version string is a proper
prefix of another asset's version, that other asset is returned: requesting
youtube 19.1 against a release holding only youtube-v19.16.39.apkm matches
that asset. -/
theorem c10_storage_lookup (assets : List RAsset) (app ver : String) :
    findApkInRelease assets app ver = assets.find? (apkAssetMatch app ver)
    ∧ (∀ a, findApkInRelease assets app ver = some a →
        ((app ++ "-v" ++ ver).data.isPrefixOf a.name.data = true
          ∧ (apkExts.any fun e => endsStr e a.name) = true))
    ∧ findApkInRelease [⟨"youtube-v19.16.39.apkm", "u"⟩] "youtube" "19.1"
        = some ⟨"youtube-v19.16.39.apkm", "u"⟩ := by
  refine ⟨findApkInRelease_eq_find? app ver assets, ?_, by decide⟩
  intro a h
  rw [findApkInRelease_eq_find? app ver assets] at h
  have := List.find?_some h
  exact Bool.and_eq_true_iff.mp this

/-- Witness for C10: the asset returned for the colliding request indeed
starts with youtube-v19.1 and carries an accepted extension, although its
actual version is 19.16.39. -/
theorem c10_storage_lookup_witness :
    ("youtube" ++ "-v" ++ "19.1").data.isPrefixOf
        (RAsset.mk "youtube-v19.16.39.apkm" "u").name.data = true
    ∧ (apkExts.any fun e => endsStr e (RAsset.mk "youtube-v19.16.39.apkm" "u").name) = true :=
  (c10_storage_lookup [⟨"youtube-v19.16.39.apkm", "u"⟩] "youtube" "19.1").2.1
    ⟨"youtube-v19.16.39.apkm", "u"⟩ (by decide)
